import Mathlib

/-!
Verification of the chainsaw text-scanning engine (`src/error.rs`,
`src/text_parser.rs`) against its natural-language specification.

Strings are modelled as `List Char`; Rust byte indices coincide with the
character indices used here on the ASCII inputs all concrete evaluations use.
The `crate::selection` module is not part of the provided sources; its
`Selection` type is modelled from the specification (see the doc comments on
`Selection` below).  Everything else is translated directly from the Rust
source.
-/

namespace Chainsaw

/-- Characters of the underlying text buffer; a value of this type stands for
a `&str` slice. -/
abbrev Str := List Char

/-- `ParseError` from `src/error.rs`: `Fatal(Option<Box<dyn Error>>)` (the
boxed cause is modelled as a `String`) or `NoMatch { action, args }`. -/
inductive ParseError where
  | fatal (cause : Option String)
  | noMatch (action : String) (args : String)
deriving DecidableEq, Repr

/-- `Recoverable::is_recoverable` for `ParseError`: true exactly on `NoMatch`. -/
def isRecoverable : ParseError → Bool
  | .fatal _ => false
  | .noMatch _ _ => true

/-- `impl Clone for ParseError`: `Fatal(_e)` clones to `Fatal(None)`,
`NoMatch` clones to itself. -/
def cloneParseError : ParseError → ParseError
  | .fatal _ => .fatal none
  | .noMatch a b => .noMatch a b

/-- `error::failure(action, _args)`: builds `NoMatch { action, args: "" }`,
discarding the `_args` argument (as the source does). -/
def failure (action : String) (_args : Str) : ParseError :=
  .noMatch action ""

/-- `Except` values viewed as sums, for deciding equalities of results. -/
def exceptToSum {ε α : Type} : Except ε α → ε ⊕ α
  | .error e => .inl e
  | .ok a => .inr a

instance {ε α : Type} [DecidableEq ε] [DecidableEq α] :
    DecidableEq (Except ε α) := fun a b =>
  decidable_of_iff (exceptToSum a = exceptToSum b)
    (by cases a <;> cases b <;> simp [exceptToSum])

/-- Modelled from the spec: the `Selection` type of the absent
`crate::selection` module (spec §3, §4.2).  `Defaulted(original-buffer)` means
no explicit capture was started; `Start(slice-at-capture-start,
slice-at-capture-end-or-none)` is an explicit capture window. -/
inductive Selection where
  | Defaulted (orig : Str)
  | Start (s : Str) (e : Option Str)
deriving DecidableEq, Repr

/-- Modelled from the spec: the begin-slice of the selection, used by
`selection_end` (`self.selection.start()`). -/
def Selection.start : Selection → Str
  | .Defaulted orig => orig
  | .Start s _ => s

/-- Modelled from the spec: `Selection::selection(cur)` returns the
`(begin-slice, end-slice)` pair used for capture: a `Defaulted` selection
captures from the start of the buffer to the current position, a `Start` with
an unset end uses the current remaining text as end. -/
def Selection.selection (sel : Selection) (cur : Str) : Str × Str :=
  match sel with
  | .Defaulted orig => (orig, cur)
  | .Start s (some e) => (s, e)
  | .Start s none => (s, cur)

/-- Modelled from the spec: `Selection::move_cursor(new)` — the begin
reference of a `Start` selection is preserved unchanged, a `Defaulted`
selection keeps tracking the original buffer, and a frozen end is preserved
(pinned by the repository's `test_parse_lists`, where the capture read after
`selection_end` followed by `text_alt` is the text up to the frozen end). -/
def Selection.move_cursor (sel : Selection) (_new : Str) : Selection :=
  sel

/-- The `Cursor` struct of `src/text_parser.rs`: selection state, remaining
text `cur`, stored error `err`, and the diagnostic `context`. -/
structure Cursor where
  selection : Selection
  cur : Option Str
  err : Option ParseError
  context : Str
deriving DecidableEq, Repr

/-- `impl From<&str> for Cursor` (the `cursor(s)` constructor). -/
def cursor (s : Str) : Cursor :=
  ⟨.Defaulted s, some s, none, []⟩

/-- `Matchable::str` for `Cursor` (via the `Option<&str>` impl):
`Ok(remaining)` unless the cursor is erroring. -/
def Cursor.str (c : Cursor) : Except ParseError Str :=
  match c.cur with
  | some s => .ok s
  | none => .error (failure "str on erroring cursor" "".toList)

/-- `Matchable::set_str` for `Cursor`: replaces the remaining text and lets
the selection track the move. -/
def set_str (c : Cursor) (s : Str) : Cursor :=
  ⟨c.selection.move_cursor s, some s, c.err, c.context⟩

/-- `Matchable::set_error` for `Cursor`: stores the error and clears the
remaining text. -/
def set_error (c : Cursor) (e : ParseError) : Cursor :=
  ⟨c.selection, none, some e, c.context⟩

/-- `Matchable::validate` for `Cursor`. -/
def validate (c : Cursor) : Except ParseError Cursor :=
  match c.err with
  | none => .ok c
  | some e => .error e

/-- The derived `Clone` for `Cursor`: slices are copied, the stored error is
cloned with `cloneParseError`. -/
def cloneCursor (c : Cursor) : Cursor :=
  ⟨c.selection, c.cur, c.err.map cloneParseError, c.context⟩

/-- `start_end`: normalizes `RangeBounds<i32>` endpoints. -/
inductive RBound where
  | inc (i : Int)
  | exc (i : Int)
  | unb
deriving Repr

/-- A `RangeBounds<i32>` value: a start bound and an end bound. -/
structure RangeB where
  s : RBound
  e : RBound
deriving Repr

/-- `start_end(rb)` from the source: `Included i ↦ i`, an excluded start
becomes `i + 1`, an excluded end becomes `i - 1`, unbounded becomes `None`. -/
def start_end (r : RangeB) : Option Int × Option Int :=
  (match r.s with
    | .inc i => some i
    | .exc i => some (i + 1)
    | .unb => none,
   match r.e with
    | .inc i => some i
    | .exc i => some (i - 1)
    | .unb => none)

/-- `i32::MAX`. -/
def i32MAX : Int := 2147483647

/-- The Rust `as usize` cast on an `i32`/`Int`: reduction modulo `2^64`
(negative values wrap around). -/
def castUsize (i : Int) : Nat :=
  (i % (2 : Int) ^ 64).toNat

/-- `s.match_indices(pred).nth(0)`: index of the first character satisfying
`pred`. -/
def firstStop (pred : Char → Bool) : Str → Option Nat
  | [] => none
  | a :: t => if pred a then some 0 else (firstStop pred t).map (· + 1)

/-- `find_first` from the source: the shared bounded-class-scan.  On an
erroring cursor it skips; if the normalized end bound is negative it fails;
otherwise it advances to the first stop character when that index is within
`[start, end + 1]`, consumes everything when no stop character exists and the
character count is within `[start, end]`, and fails with
`NoMatch { action, "" }` otherwise. -/
def find_first (c : Cursor) (r : RangeB) (pred : Char → Bool)
    (action : String) : Cursor :=
  match c.cur with
  | none => c
  | some s =>
    let se := start_end r
    if (match se.2 with | some e => decide (e < 0) | none => false) then
      set_error c (.noMatch action "")
    else
      let start := castUsize (se.1.getD 0)
      let end_ := castUsize (se.2.getD i32MAX)
      match firstStop pred s with
      | some i =>
        if start ≤ i ∧ i ≤ end_ + 1 then set_str c (s.drop i)
        else set_error c (failure action "".toList)
      | none =>
        if start ≤ s.length ∧ s.length ≤ end_ then set_str c []
        else set_error c (failure action "".toList)

/-- `apply` from the source: runs a text-prefix transform `f` on the
remaining text, failing with `NoMatch { msg, "" }` (via `failure`) when the
transform returns `None`, and skipping when the cursor is already erroring. -/
def apply (c : Cursor) (f : Str → Option Str) (msg : String) : Cursor :=
  match c.cur with
  | some s =>
    match f s with
    | some s' => set_str c s'
    | none => set_error c (failure msg s)
  | none => c

/-- `strip_prefix` on slices: `Some(rest)` when `w` is a prefix. -/
def stripPre (w s : Str) : Option Str :=
  if w.isPrefixOf s then some (s.drop w.length) else none

/-- `s.find(needle)`: index of the first occurrence of `needle`. -/
def findSub (w : Str) : Str → Option Nat
  | [] => if w.isPrefixOf ([] : Str) then some 0 else none
  | a :: t =>
    if w.isPrefixOf (a :: t) then some 0 else (findSub w t).map (· + 1)

/-- `Matchable::noop`. -/
def noop (c : Cursor) : Cursor :=
  apply c (fun s => some s) "noop"

/-- `Matchable::ws`: `trim_start`. -/
def ws (c : Cursor) : Cursor :=
  apply c (fun s => some (s.dropWhile (·.isWhitespace))) "ws"

/-- `Matchable::non_ws`. -/
def non_ws (c : Cursor) : Cursor :=
  apply c (fun s => some (s.dropWhile (fun ch => !ch.isWhitespace))) "non_ws"

/-- `Matchable::hws`: horizontal whitespace only. -/
def hws (c : Cursor) : Cursor :=
  apply c
    (fun s => some (s.dropWhile (fun ch => ch.isWhitespace && ch != '\n' && ch != '\r')))
    "hws"

/-- `Matchable::text(word)`: strip exact prefix, fail if absent. -/
def text (c : Cursor) (w : Str) : Cursor :=
  apply c (fun s => stripPre w s) "text"

/-- `Matchable::maybe(word)`: strip prefix if present, never fail. -/
def maybe (c : Cursor) (w : Str) : Cursor :=
  apply c
    (fun s => match stripPre w s with | some r => some r | none => some s)
    "maybe"

/-- The loop body of `Matchable::text_alt`. -/
def text_alt_go (s : Str) : List Str → Option Str
  | [] => none
  | w :: rest =>
    if w.isPrefixOf s then stripPre w s else text_alt_go s rest

/-- `Matchable::text_alt(words)`: first literal whose prefix matches. -/
def text_alt (c : Cursor) (words : List Str) : Cursor :=
  apply c (fun s => text_alt_go s words) "text_alt"

/-- `Matchable::text_eos`: succeed only at end of text. -/
def text_eos (c : Cursor) : Cursor :=
  apply c (fun s => if s.isEmpty then some s else none) "eos"

/-- `Matchable::text_eol`: succeed at end of text, or strip `\r\n` or `\n`. -/
def text_eol (c : Cursor) : Cursor :=
  apply c
    (fun s =>
      if s.isEmpty then some s
      else match stripPre ['\r', '\n'] s with
        | some r => some r
        | none => stripPre ['\n'] s)
    "eol"

/-- `Matchable::find(needle)`: advance to the first occurrence (inclusive). -/
def find (c : Cursor) (needle : Str) : Cursor :=
  apply c (fun s => (findSub needle s).map (fun i => s.drop i)) "find"

/-- `Matchable::scan_text(needle)`: advance past the first occurrence. -/
def scan_text (c : Cursor) (needle : Str) : Cursor :=
  apply c (fun s => (findSub needle s).map (fun i => s.drop (i + needle.length)))
    "scan"

/-- `Matchable::scan_eol`: advance past the next `\n`, or to end of text. -/
def scan_eol (c : Cursor) : Cursor :=
  apply c
    (fun s =>
      match findSub ['\n'] s with
      | some i => some (s.drop (i + 1))
      | none => some [])
    "scan_eol"

/-- `Matchable::word`: drop alphanumeric / digit / hyphen characters. -/
def word (c : Cursor) : Cursor :=
  apply c
    (fun s =>
      some (s.dropWhile (fun ch => ch.isAlphanum || ch.isDigit || ch == '-')))
    "word"

/-- `Matchable::digits(range)`: stop at the first non-ASCII-digit. -/
def digits (c : Cursor) (r : RangeB) : Cursor :=
  find_first c r (fun ch => !ch.isDigit) "digits_m"

/-- `Matchable::alphabetics(range)`. -/
def alphabetics (c : Cursor) (r : RangeB) : Cursor :=
  find_first c r (fun ch => !ch.isAlpha) "alpha_many"

/-- `Matchable::alphanumerics(range)`. -/
def alphanumerics (c : Cursor) (r : RangeB) : Cursor :=
  find_first c r (fun ch => !ch.isAlphanum) "alpha_many"

/-- `Matchable::chars_in(range, chars)`. -/
def chars_in (c : Cursor) (r : RangeB) (cs : Str) : Cursor :=
  find_first c r (fun ch => !cs.contains ch) "chars_in"

/-- `Matchable::chars_not_in(range, chars)`. -/
def chars_not_in (c : Cursor) (r : RangeB) (cs : Str) : Cursor :=
  find_first c r (fun ch => cs.contains ch) "chars_not_in"

/-- `Matchable::chars_match(range, pred)`. -/
def chars_match (c : Cursor) (r : RangeB) (p : Char → Bool) : Cursor :=
  find_first c r (fun ch => !p ch) "chars_match"

/-- `Selectable::selection_start` for `Cursor`: opens a fresh capture window
at the current remaining text; skipped on an erroring cursor. -/
def selection_start (c : Cursor) : Cursor :=
  match c.cur with
  | some s0 => ⟨.Start s0 none, some s0, c.err, c.context⟩
  | none => c

/-- `Selectable::selection_end` for `Cursor`: freezes the end of the capture
window at the current remaining text; skipped on an erroring cursor. -/
def selection_end (c : Cursor) : Cursor :=
  match c.cur with
  | some _ => ⟨.Start c.selection.start c.cur, c.cur, c.err, c.context⟩
  | none => c

/-- `Selectable::get_selection` for `Cursor`: materializes the capture as
`begin-slice[0 .. len(begin) - len(end)]`; on an erroring cursor it clones
and surfaces the stored error.  (When both `cur` and `err` are absent the
source panics; that state is unreachable under the cursor invariant and is
modelled as surfacing the default `NoMatch`.) -/
def get_selection (c : Cursor) : Except ParseError Str :=
  match c.cur with
  | some cur =>
    let p := c.selection.selection cur
    .ok (p.1.take (p.1.length - p.2.length))
  | none => .error (cloneParseError (c.err.getD (.noMatch "" "")))

/-- `Selectable::select(parser)`: runs `parser` from a fresh capture window;
closes the window on success, replaces any sub-parser failure with
`NoMatch { "select_with", "" }`, and skips on an erroring cursor. -/
def select (p : Cursor → Cursor) (c : Cursor) : Cursor :=
  match c.cur with
  | some s =>
    let t := p (selection_start c)
    match t.cur with
    | some tt => selection_end (set_str t tt)
    | none => set_error t (failure "select_with" s)
  | none => c

/-- `Selectable::parse_selection::<T>` for `Cursor`: reads the capture,
converts it with the `FromStr`-style function `fs` (an external capability:
`Str → Option T`), failing with `failure "parse" text` on conversion failure;
on success returns the unchanged cursor paired with the value
(`maybe_detuple` for a bare `Cursor` is pairing). -/
def parse_selection {T : Type} (fs : Str → Option T) (c : Cursor) :
    Except ParseError (Cursor × T) :=
  match get_selection c with
  | .error e => .error e
  | .ok txt =>
    match c.str with
    | .error e => .error e
    | .ok _ =>
      match fs txt with
      | none => .error (failure "parse" txt)
      | some i => .ok (c, i)

/-- `Selectable::parse_selection::<T>` at the `(Cursor, T1)` instance:
`maybe_detuple` appends the converted value as the last tuple element. -/
def parse_selection1 {T1 T : Type} (fs : Str → Option T) (ct : Cursor × T1) :
    Except ParseError (Cursor × T1 × T) :=
  match get_selection ct.1 with
  | .error e => .error e
  | .ok txt =>
    match ct.1.str with
    | .error e => .error e
    | .ok _ =>
      match fs txt with
      | none => .error (failure "parse" txt)
      | some i => .ok (ct.1, ct.2, i)

/-- `Selectable::append_last`: reads the capture, converts it with `fs`, and
extends `vec`; a conversion failure sets `NoMatch { "", "" }`; a cursor whose
capture cannot be read is returned unchanged.  (The source mutates `vec`;
modelled by returning the extended list.) -/
def append_last {T : Type} (fs : Str → Option T) (c : Cursor) (vec : List T) :
    Cursor × List T :=
  match get_selection c with
  | .ok txt =>
    match fs txt with
    | some t => (c, vec ++ [t])
    | none => (set_error c (.noMatch "" ""), vec)
  | .error _ => (c, vec)

/-- The loop of `Matchable::repeat`, with the iteration count made explicit:
each round runs the lexer on a clone and validates; a failure stops the loop,
returning the last good cursor. -/
def repeat_go : Nat → (Cursor → Cursor) → Cursor → Cursor
  | 0, _, c => c
  | n + 1, f, c =>
    match validate (f (cloneCursor c)) with
    | .ok s => repeat_go n f s
    | .error _ => c

/-- `Matchable::repeat(range, lexer)`: runs the loop
`0 .. start_end(range).1.unwrap_or(i32::MAX)` times. -/
def repeatM (c : Cursor) (r : RangeB) (f : Cursor → Cursor) : Cursor :=
  repeat_go ((start_end r).2.getD i32MAX).toNat f c

/-- `Matchable::parse_struct_vec(parser)`, with explicit fuel standing for the
unbounded `loop` (`none` = the loop has not terminated within `fuel` rounds):
push produced values until the sub-parser returns `NoMatch` (ending the loop
successfully with the last good cursor and the collected values) or `Fatal`
(propagated). -/
def parse_struct_vec {T : Type} :
    Nat → (Cursor → Except ParseError (Cursor × T)) → Cursor →
    Option (Except ParseError (Cursor × List T))
  | 0, _, _ => none
  | n + 1, p, c =>
    match p (cloneCursor c) with
    | .ok (s, t) =>
      match parse_struct_vec n p s with
      | none => none
      | some (.ok (c', ts)) => some (.ok (c', t :: ts))
      | some (.error e) => some (.error e)
    | .error (.noMatch _ _) => some (.ok (c, []))
    | .error (.fatal e) => some (.error (.fatal e))

/-- A deep embedding of the matching-combinator call surface of `Matchable`
(one constructor per combinator, carrying its arguments), used to quantify
over arbitrary sequences of combinator calls. -/
inductive Op where
  | noop | ws | hws | non_ws | word | text_eos | text_eol | scan_eol
  | text (w : Str) | maybe (w : Str) | text_alt (words : List Str)
  | find (w : Str) | scan_text (w : Str)
  | digits (r : RangeB) | alphabetics (r : RangeB) | alphanumerics (r : RangeB)
  | chars_in (r : RangeB) (cs : Str) | chars_not_in (r : RangeB) (cs : Str)
  | chars_match (r : RangeB) (p : Char → Bool)

/-- Run one combinator call on a cursor. -/
def runOp : Op → Cursor → Cursor
  | .noop, c => noop c
  | .ws, c => ws c
  | .hws, c => hws c
  | .non_ws, c => non_ws c
  | .word, c => word c
  | .text_eos, c => text_eos c
  | .text_eol, c => text_eol c
  | .scan_eol, c => scan_eol c
  | .text w, c => text c w
  | .maybe w, c => maybe c w
  | .text_alt ws, c => text_alt c ws
  | .find w, c => find c w
  | .scan_text w, c => scan_text c w
  | .digits r, c => digits c r
  | .alphabetics r, c => alphabetics c r
  | .alphanumerics r, c => alphanumerics c r
  | .chars_in r cs, c => chars_in c r cs
  | .chars_not_in r cs, c => chars_not_in c r cs
  | .chars_match r p, c => chars_match c r p

/-- Run a sequence of combinator calls left to right. -/
def runOps : List Op → Cursor → Cursor
  | [], c => c
  | op :: ops, c => runOps ops (runOp op c)

/-- The cursor invariant: exactly one of the remaining text and the stored
error is present. -/
def Inv (c : Cursor) : Prop :=
  (c.cur ≠ none ∧ c.err = none) ∨ (c.cur = none ∧ c.err ≠ none)

instance (c : Cursor) : Decidable (Inv c) := by
  unfold Inv; infer_instance

/-- A concrete cursor holding an error, for exercising the sticky-error
theorem. -/
def errCursorW : Cursor := set_error (cursor ['a']) (.fatal (some "boom"))

/-- The length of the leading ASCII-digit run of a text. -/
def digitRun (s : Str) : Nat := (s.takeWhile (·.isDigit)).length

/-- `k` successful rounds of `repeat`'s loop body: each round runs the lexer
on a clone and keeps the result only if it validates; `none` if any of the
`k` rounds fails. -/
def iter_ok : Nat → (Cursor → Cursor) → Cursor → Option Cursor
  | 0, _, c => some c
  | n + 1, f, c =>
    match validate (f (cloneCursor c)) with
    | .ok s => iter_ok n f s
    | .error _ => none

/-- A sub-parser that always raises a `Fatal` failure with a cause. -/
def fatalStep : Cursor → Cursor :=
  fun c => set_error c (.fatal (some "boom"))

/-- `impl PartialEq for Cursor`: fields must agree and both cursors must be
error free. -/
def cursor_eq (a b : Cursor) : Bool :=
  decide (a.selection = b.selection) && decide (a.cur = b.cur) &&
    decide (a.context = b.context) &&
    (match a.err, b.err with
      | none, none => true
      | _, _ => false)

/-- A concrete `FromStr`-style conversion capability (external collaborator,
spec §4.5): parses a non-empty all-digit text as a natural number. -/
def natFromStr (s : Str) : Option Nat :=
  if s ≠ [] ∧ s.all (·.isDigit) then
    some (s.foldl (fun n c => n * 10 + (c.toNat - '0'.toNat)) 0)
  else none

/-- A concrete cursor whose capture reads back `"ab"`: `non_ws` consumed the
whole text, and the default selection spans everything consumed. -/
def abCursor : Cursor := non_ws (cursor ['a', 'b'])

/-- A concrete cursor whose capture reads back `"42"`. -/
def digitsCursor : Cursor := non_ws (cursor ['4', '2'])

lemma apply_skip (c : Cursor) (f : Str → Option Str) (m : String)
    (h : c.cur = none) : apply c f m = c := by
  simp [apply, h]

lemma find_first_skip (c : Cursor) (r : RangeB) (pred : Char → Bool)
    (action : String) (h : c.cur = none) : find_first c r pred action = c := by
  simp [find_first, h]

lemma runOp_skip (op : Op) (c : Cursor) (h : c.cur = none) :
    runOp op c = c := by
  cases op <;>
    simp [runOp, noop, ws, hws, non_ws, word, text_eos, text_eol, scan_eol,
      text, maybe, text_alt, find, scan_text, digits, alphabetics,
      alphanumerics, chars_in, chars_not_in, chars_match,
      apply_skip _ _ _ h, find_first_skip _ _ _ _ h]

lemma runOps_skip (ops : List Op) (c : Cursor) (h : c.cur = none) :
    runOps ops c = c := by
  induction ops with
  | nil => rfl
  | cons op ops ih => simp [runOps, runOp_skip op c h, ih]

lemma apply_shape (c : Cursor) (s : Str) (f : Str → Option Str) (m : String)
    (h : c.cur = some s) (hf : ∀ r, f s = some r → r <:+ s) :
    (∃ e, apply c f m = set_error c e) ∨
      ∃ s', s' <:+ s ∧ apply c f m = set_str c s' := by
  simp only [apply, h]
  cases hfs : f s with
  | none => exact .inl ⟨failure m s, rfl⟩
  | some r => exact .inr ⟨r, hf r hfs, rfl⟩

lemma find_first_shape (c : Cursor) (s : Str) (r : RangeB)
    (pred : Char → Bool) (action : String) (h : c.cur = some s) :
    (∃ e, find_first c r pred action = set_error c e) ∨
      ∃ s', s' <:+ s ∧ find_first c r pred action = set_str c s' := by
  simp only [find_first, h]
  split
  · exact .inl ⟨.noMatch action "", rfl⟩
  · cases hfs : firstStop pred s with
    | none =>
      simp only
      split
      · exact .inr ⟨[], List.nil_suffix, rfl⟩
      · exact .inl ⟨failure action "".toList, rfl⟩
    | some i =>
      simp only
      split
      · exact .inr ⟨s.drop i, List.drop_suffix i s, rfl⟩
      · exact .inl ⟨failure action "".toList, rfl⟩

lemma stripPre_suffix (w s r : Str) (h : stripPre w s = some r) : r <:+ s := by
  unfold stripPre at h
  split at h
  · cases h; exact List.drop_suffix _ s
  · cases h

lemma text_alt_go_suffix (s : Str) (words : List Str) (r : Str)
    (h : text_alt_go s words = some r) : r <:+ s := by
  induction words with
  | nil => cases h
  | cons w rest ih =>
    unfold text_alt_go at h
    split at h
    · exact stripPre_suffix w s r h
    · exact ih h

lemma runOp_shape (op : Op) (c : Cursor) (s : Str) (h : c.cur = some s) :
    (∃ e, runOp op c = set_error c e) ∨
      ∃ s', s' <:+ s ∧ runOp op c = set_str c s' := by
  cases op with
  | noop =>
    unfold runOp noop
    refine apply_shape c s _ _ h (fun r hr => ?_)
    simp only [Option.some.injEq] at hr
    exact hr ▸ List.suffix_refl s
  | ws =>
    unfold runOp ws
    refine apply_shape c s _ _ h (fun r hr => ?_)
    simp only [Option.some.injEq] at hr
    exact hr ▸ List.dropWhile_suffix _
  | hws =>
    unfold runOp hws
    refine apply_shape c s _ _ h (fun r hr => ?_)
    simp only [Option.some.injEq] at hr
    exact hr ▸ List.dropWhile_suffix _
  | non_ws =>
    unfold runOp non_ws
    refine apply_shape c s _ _ h (fun r hr => ?_)
    simp only [Option.some.injEq] at hr
    exact hr ▸ List.dropWhile_suffix _
  | word =>
    unfold runOp word
    refine apply_shape c s _ _ h (fun r hr => ?_)
    simp only [Option.some.injEq] at hr
    exact hr ▸ List.dropWhile_suffix _
  | text_eos =>
    unfold runOp text_eos
    refine apply_shape c s _ _ h (fun r hr => ?_)
    simp only at hr
    split at hr
    · cases hr; exact List.suffix_refl s
    · cases hr
  | text_eol =>
    unfold runOp text_eol
    refine apply_shape c s _ _ h (fun r hr => ?_)
    simp only at hr
    split at hr
    · cases hr; exact List.suffix_refl s
    · cases hsp : stripPre ['\r', '\n'] s with
      | some r' => rw [hsp] at hr; cases hr; exact stripPre_suffix _ s r hsp
      | none => rw [hsp] at hr; exact stripPre_suffix _ s r hr
  | scan_eol =>
    unfold runOp scan_eol
    refine apply_shape c s _ _ h (fun r hr => ?_)
    simp only at hr
    cases hfs : findSub ['\n'] s with
    | some i => rw [hfs] at hr; cases hr; exact List.drop_suffix _ s
    | none => rw [hfs] at hr; cases hr; exact List.nil_suffix
  | text w =>
    unfold runOp text
    exact apply_shape c s _ _ h (fun r hr => stripPre_suffix w s r hr)
  | maybe w =>
    unfold runOp maybe
    refine apply_shape c s _ _ h (fun r hr => ?_)
    simp only at hr
    cases hsp : stripPre w s with
    | some r' => rw [hsp] at hr; cases hr; exact stripPre_suffix w s r hsp
    | none => rw [hsp] at hr; cases hr; exact List.suffix_refl s
  | text_alt ws =>
    unfold runOp text_alt
    exact apply_shape c s _ _ h (fun r hr => text_alt_go_suffix s ws r hr)
  | find w =>
    unfold runOp find
    refine apply_shape c s _ _ h (fun r hr => ?_)
    simp only at hr
    cases hfs : findSub w s with
    | some i =>
      rw [hfs] at hr
      simp only [Option.map, Option.some.injEq] at hr
      exact hr ▸ List.drop_suffix i s
    | none => rw [hfs] at hr; simp only [Option.map] at hr; cases hr
  | scan_text w =>
    unfold runOp scan_text
    refine apply_shape c s _ _ h (fun r hr => ?_)
    simp only at hr
    cases hfs : findSub w s with
    | some i =>
      rw [hfs] at hr
      simp only [Option.map, Option.some.injEq] at hr
      exact hr ▸ List.drop_suffix _ s
    | none => rw [hfs] at hr; simp only [Option.map] at hr; cases hr
  | digits r =>
    unfold runOp digits
    exact find_first_shape c s r _ _ h
  | alphabetics r =>
    unfold runOp alphabetics
    exact find_first_shape c s r _ _ h
  | alphanumerics r =>
    unfold runOp alphanumerics
    exact find_first_shape c s r _ _ h
  | chars_in r cs =>
    unfold runOp chars_in
    exact find_first_shape c s r _ _ h
  | chars_not_in r cs =>
    unfold runOp chars_not_in
    exact find_first_shape c s r _ _ h
  | chars_match r p =>
    unfold runOp chars_match
    exact find_first_shape c s r _ _ h

lemma inv_err_none {c : Cursor} {s : Str} (h : Inv c) (hc : c.cur = some s) :
    c.err = none := by
  rcases h with ⟨_, he⟩ | ⟨hn, _⟩
  · exact he
  · rw [hc] at hn; cases hn

lemma runOp_inv (op : Op) (c : Cursor) (h : Inv c) : Inv (runOp op c) := by
  cases hc : c.cur with
  | none => rw [runOp_skip op c hc]; exact h
  | some s =>
    rcases runOp_shape op c s hc with ⟨e, he⟩ | ⟨s', _, hs⟩
    · rw [he]; exact .inr ⟨rfl, by simp [set_error]⟩
    · rw [hs]; exact .inl ⟨by simp [set_str], by simp [set_str, inv_err_none h hc]⟩

lemma selection_start_inv (c : Cursor) (h : Inv c) : Inv (selection_start c) := by
  cases hc : c.cur with
  | none => simp only [selection_start, hc]; exact h
  | some s =>
    simp only [selection_start, hc]
    exact .inl ⟨by simp, by simp [inv_err_none h hc]⟩

lemma selection_end_inv (c : Cursor) (h : Inv c) : Inv (selection_end c) := by
  cases hc : c.cur with
  | none => simp only [selection_end, hc]; exact h
  | some s =>
    simp only [selection_end, hc]
    exact .inl ⟨by simp, by simp [inv_err_none h hc]⟩

lemma select_inv (p : Cursor → Cursor) (c : Cursor)
    (hp : ∀ d, Inv d → Inv (p d)) (h : Inv c) : Inv (select p c) := by
  cases hc : c.cur with
  | none => simp only [select, hc]; exact h
  | some s =>
    simp only [select, hc]
    have ht : Inv (p (selection_start c)) := hp _ (selection_start_inv c h)
    cases htc : (p (selection_start c)).cur with
    | none => exact .inr ⟨rfl, by simp [set_error]⟩
    | some tt =>
      have herr : (p (selection_start c)).err = none := inv_err_none ht htc
      refine selection_end_inv _ ?_
      exact .inl ⟨by simp [set_str], by simp [set_str, herr]⟩

lemma append_last_inv {T : Type} (fs : Str → Option T) (c : Cursor)
    (vec : List T) (h : Inv c) : Inv (append_last fs c vec).1 := by
  unfold append_last
  cases hg : get_selection c with
  | error e => exact h
  | ok txt =>
    dsimp only
    cases hf : fs txt with
    | some t => simp only [hf]; exact h
    | none => simp only [hf]; exact .inr ⟨rfl, by simp [set_error]⟩

lemma selection_start_skip (c : Cursor) (h : c.cur = none) :
    selection_start c = c := by simp [selection_start, h]

lemma selection_end_skip (c : Cursor) (h : c.cur = none) :
    selection_end c = c := by simp [selection_end, h]

lemma select_skip (p : Cursor → Cursor) (c : Cursor) (h : c.cur = none) :
    select p c = c := by simp [select, h]

lemma append_last_skip {T : Type} (fs : Str → Option T) (c : Cursor)
    (vec : List T) (h : c.cur = none) : append_last fs c vec = (c, vec) := by
  simp [append_last, get_selection, h]

/-- C1.  Cursor construction establishes the exactly-one-of-`remaining`/
`error` invariant; every matching combinator (`runOp` covers `text`, `maybe`,
`text_alt`, `find`, `ws`, `digits`, `chars_in`, and the rest of `Matchable`),
`selection_start`, `selection_end`, `select` (for any sub-parser that itself
preserves the invariant) and `append_last` preserve it; and on a cursor that
already holds an error every one of these calls is a strict no-op, returning
the cursor (and its error content) unchanged. -/
theorem sticky_error_invariant :
    (∀ s : Str, Inv (cursor s)) ∧
    (∀ (op : Op) (c : Cursor), Inv c → Inv (runOp op c)) ∧
    (∀ c : Cursor, Inv c → Inv (selection_start c) ∧ Inv (selection_end c)) ∧
    (∀ (p : Cursor → Cursor) (c : Cursor),
      (∀ d, Inv d → Inv (p d)) → Inv c → Inv (select p c)) ∧
    (∀ (T : Type) (fs : Str → Option T) (c : Cursor) (vec : List T),
      Inv c → Inv (append_last fs c vec).1) ∧
    (∀ (c : Cursor) (e : ParseError), c.err = some e → Inv c →
      (∀ op : Op, runOp op c = c) ∧ selection_start c = c ∧
        selection_end c = c ∧ (∀ p : Cursor → Cursor, select p c = c) ∧
        (∀ (T : Type) (fs : Str → Option T) (vec : List T),
          append_last fs c vec = (c, vec))) := by
  refine ⟨fun s => .inl ⟨by simp [cursor], rfl⟩, runOp_inv,
    fun c h => ⟨selection_start_inv c h, selection_end_inv c h⟩,
    select_inv, fun T fs c vec h => append_last_inv fs c vec h,
    fun c e he h => ?_⟩
  have hc : c.cur = none := by
    rcases h with ⟨_, hn⟩ | ⟨hn, _⟩
    · rw [he] at hn; cases hn
    · exact hn
  exact ⟨fun op => runOp_skip op c hc, selection_start_skip c hc,
    selection_end_skip c hc, fun p => select_skip p c hc,
    fun T fs vec => append_last_skip fs c vec hc⟩

/-- Witness for C1 at concrete inputs: the invariant holds after
construction and after a `ws` call, and on a concrete erroring cursor the
combinators `ws` (via `runOp`), `select` and `append_last` return it
untouched. -/
theorem sticky_error_invariant_witness :
    Inv (cursor ['a']) ∧ Inv (runOp .ws (cursor ['a'])) ∧
      runOp .ws errCursorW = errCursorW ∧
      select (fun d => d) errCursorW = errCursorW ∧
      append_last (fun _ => some 0) errCursorW [] = (errCursorW, []) := by
  refine ⟨sticky_error_invariant.1 ['a'],
    sticky_error_invariant.2.1 .ws (cursor ['a']) (by decide), ?_, ?_, ?_⟩
  · exact (sticky_error_invariant.2.2.2.2.2 errCursorW (.fatal (some "boom"))
      rfl (by decide)).1 .ws
  · exact (sticky_error_invariant.2.2.2.2.2 errCursorW (.fatal (some "boom"))
      rfl (by decide)).2.2.2.1 (fun d => d)
  · exact (sticky_error_invariant.2.2.2.2.2 errCursorW (.fatal (some "boom"))
      rfl (by decide)).2.2.2.2 Nat (fun _ => some 0) []

lemma runOps_capture (ops : List Op) :
    ∀ (c : Cursor) (a s : Str), c.cur = some s → c.selection = .Start a none →
      c.err = none →
      (runOps ops c).cur = none ∨
        ∃ rem, rem <:+ s ∧
          runOps ops c = ⟨.Start a none, some rem, none, c.context⟩ := by
  induction ops with
  | nil =>
    intro c a s hc hsel herr
    refine .inr ⟨s, List.suffix_refl s, ?_⟩
    cases c
    simp_all [runOps]
  | cons op ops ih =>
    intro c a s hc hsel herr
    have hcons : runOps (op :: ops) c = runOps ops (runOp op c) := rfl
    rcases runOp_shape op c s hc with ⟨e, he⟩ | ⟨s', hsuf, hs⟩
    · left
      rw [hcons, he, runOps_skip ops _ (by simp [set_error])]
      simp [set_error]
    · have hstep := ih (set_str c s') a s' (by simp [set_str])
        (by simp [set_str, Selection.move_cursor, hsel]) (by simp [set_str, herr])
      rcases hstep with h1 | ⟨rem, hrem, heq⟩
      · left; rw [hcons, hs]; exact h1
      · right
        refine ⟨rem, hrem.trans hsuf, ?_⟩
        rw [hcons, hs, heq]
        simp [set_str]

/-- C4.  For any non-error cursor (at any capture-nesting state), opening a
capture with `selection_start`, running any sequence of matching combinators
that succeeds, closing with `selection_end`, and reading the capture yields
exactly the text consumed between the two calls: it equals the prefix of the
capture-start slice of length `len(start-slice) - len(remaining)`, and that
prefix concatenated with the remaining text is the start slice.  The closed
selection stores only the two slices (`Start start remaining`); the captured
text is computed from them only when `get_selection` is called. -/
theorem capture_exactness :
    ∀ (ops : List Op) (c : Cursor) (s rem : Str),
      c.cur = some s → c.err = none →
      (runOps ops (selection_start c)).cur = some rem →
      get_selection (selection_end (runOps ops (selection_start c))) =
        .ok (s.take (s.length - rem.length)) ∧
      s.take (s.length - rem.length) ++ rem = s ∧
      (selection_end (runOps ops (selection_start c))).selection =
        .Start s (some rem) := by
  intro ops c s rem hc herr hres
  have hstart : selection_start c = ⟨.Start s none, some s, c.err, c.context⟩ := by
    simp [selection_start, hc]
  have hcap := runOps_capture ops (selection_start c) s s
    (by rw [hstart]) (by rw [hstart]) (by rw [hstart]; exact herr)
  rcases hcap with hnone | ⟨rem', hsuf, heq⟩
  · rw [hres] at hnone; cases hnone
  · have hrr : rem' = rem := by
      rw [heq] at hres
      simpa using hres
    subst hrr
    rw [heq]
    obtain ⟨p, hp⟩ := hsuf
    refine ⟨?_, ?_, ?_⟩
    · simp only [selection_end, get_selection, Selection.start,
        Selection.selection]
    · rw [← hp]
      simp [List.length_append, Nat.add_sub_cancel, List.take_left]
    · simp [selection_end, Selection.start]

/-- Witness for C4 at a concrete input: on `"12X"`, capturing around
`digits(1..)` yields exactly the consumed text `"12"`, which rebuilds the
start slice when concatenated with the remaining `"X"`. -/
theorem capture_exactness_witness :
    get_selection (selection_end (runOps [.digits ⟨.inc 1, .unb⟩]
        (selection_start (cursor ['1', '2', 'X'])))) = .ok ['1', '2'] ∧
      ['1', '2'] ++ ['X'] = ['1', '2', 'X'] ∧
      (selection_end (runOps [.digits ⟨.inc 1, .unb⟩]
        (selection_start (cursor ['1', '2', 'X'])))).selection =
        .Start ['1', '2', 'X'] (some ['X']) := by
  have h := capture_exactness [.digits ⟨.inc 1, .unb⟩] (cursor ['1', '2', 'X'])
    ['1', '2', 'X'] ['X'] rfl rfl (by decide)
  exact ⟨h.1, h.2.1, h.2.2⟩

lemma firstStop_takeWhile (q : Char → Bool) (s : Str) :
    firstStop (fun ch => !(q ch)) s =
      if (s.takeWhile q).length < s.length then some (s.takeWhile q).length
      else none := by
  induction s with
  | nil => simp [firstStop]
  | cons a t ih =>
    by_cases hq : q a
    · have htw : (a :: t).takeWhile q = a :: t.takeWhile q := by
        simp [List.takeWhile_cons, hq]
      simp only [firstStop, hq, Bool.not_true, if_false, htw, List.length_cons,
        ih]
      by_cases hlt : (t.takeWhile q).length < t.length
      · simp [hlt, Nat.succ_lt_succ hlt]
      · have : ¬ ((t.takeWhile q).length + 1 < t.length + 1) := by omega
        simp [hlt, this]
    · have htw : (a :: t).takeWhile q = [] := by
        simp [List.takeWhile_cons, hq]
      simp [firstStop, hq, htw]

lemma digitRun_le (s : Str) : digitRun s ≤ s.length := by
  unfold digitRun
  exact (List.takeWhile_sublist _).length_le

lemma firstStop_digits (s : Str) :
    firstStop (fun ch => !ch.isDigit) s =
      if digitRun s < s.length then some (digitRun s) else none :=
  firstStop_takeWhile (fun ch => ch.isDigit) s

lemma castUsize_of_nonneg (i : Int) (h0 : 0 ≤ i) (h1 : i < (2 : Int) ^ 64) :
    castUsize i = i.toNat := by
  unfold castUsize
  rw [Int.emod_eq_of_lt h0 h1]

/-- C2.  Evaluation of the bounded-class-scan at the failing input
`digits((-1)..=5)` on `"X"`.  The first stop character is at index `0` and
the claimed bound check `lo ≤ 0 ≤ hi + 1` holds (`-1 ≤ 0 ≤ 6`), so the
described algorithm — and the source comment "set start to 0, if < 0" —
require the cursor to advance to index `0`; the code instead casts the
negative normalized start to `usize` (`2^64 - 1`), the bound check fails,
and the scan returns `NoMatch`. -/
theorem class_scan_negative_start_eval :
    firstStop (fun ch => !ch.isDigit) ['X'] = some 0 ∧
      ((-1 : Int) ≤ 0 ∧ (0 : Int) ≤ 5 + 1) ∧
      digits (cursor ['X']) ⟨.inc (-1), .inc 5⟩ =
        set_error (cursor ['X']) (.noMatch "digits_m" "") ∧
      castUsize (-1) = 18446744073709551615 := by
  decide

/-- C3 counterexample.  On `"12X"` the leading digit run has length `2`,
which does not lie in the requested range `[0, 1]`, yet `digits(0..=1)`
succeeds (the `i <= end + 1` leniency): it advances past the whole run and
holds no error — refuting "succeeds when and only when the run length lies in
`[lo, hi]`". -/
theorem digits_range_counterexample :
    digits (cursor ['1', '2', 'X']) ⟨.inc 0, .inc 1⟩ =
        set_str (cursor ['1', '2', 'X']) ['X'] ∧
      (set_str (cursor ['1', '2', 'X']) ['X']).err = none ∧
      digitRun ['1', '2', 'X'] = 2 ∧ ¬(0 ≤ (2 : Int) ∧ (2 : Int) ≤ 1) := by
  decide

/-- C3 as amended.  For `0 ≤ lo` and i32-sized bounds, `digits(lo..=hi)` on
remaining text `s` with digit-run length `n` advances past exactly the
leading ASCII-digit run (never consuming a non-digit) precisely when
`0 ≤ hi`, `lo ≤ n`, and either `n ≤ hi` or `n = hi + 1` with a non-digit
following the run; in every other case it fails with the recoverable
`NoMatch { "digits_m", "" }`.  Success and failure results are distinct
cursors, so the if-then-else characterization is exact. -/
theorem digits_range_amended :
    ∀ (lo hi : Int) (c : Cursor) (s : Str),
      c.cur = some s → 0 ≤ lo → lo ≤ i32MAX → hi ≤ i32MAX →
      (digits c ⟨.inc lo, .inc hi⟩ =
        if 0 ≤ hi ∧ lo ≤ (digitRun s : Int) ∧
            ((digitRun s : Int) ≤ hi ∨
              ((digitRun s : Int) = hi + 1 ∧ digitRun s < s.length))
         then set_str c (s.drop (digitRun s))
         else set_error c (.noMatch "digits_m" "")) ∧
      set_str c (s.drop (digitRun s)) ≠ set_error c (.noMatch "digits_m" "") ∧
      isRecoverable (.noMatch "digits_m" "") = true := by
  intro lo hi c s hc hlo hloM hhiM
  have hMlt : i32MAX < (2 : Int) ^ 64 := by decide
  refine ⟨?_, ?_, rfl⟩
  · simp only [digits, find_first, hc, start_end]
    by_cases hneg : hi < 0
    · have hcond : ¬(0 ≤ hi ∧ lo ≤ (digitRun s : Int) ∧
          ((digitRun s : Int) ≤ hi ∨
            ((digitRun s : Int) = hi + 1 ∧ digitRun s < s.length))) := by
        omega
      simp [hneg, hcond]
    · have h0hi : 0 ≤ hi := by omega
      have hcl : castUsize lo = lo.toNat :=
        castUsize_of_nonneg lo hlo (by omega)
      have hch : castUsize hi = hi.toNat :=
        castUsize_of_nonneg hi h0hi (by omega)
      simp only [hneg, decide_eq_true_eq, if_false, Option.getD, hcl, hch,
        firstStop_digits]
      by_cases hrun : digitRun s < s.length
      · have hiff : (lo.toNat ≤ digitRun s ∧ digitRun s ≤ hi.toNat + 1) ↔
            (0 ≤ hi ∧ lo ≤ (digitRun s : Int) ∧
              ((digitRun s : Int) ≤ hi ∨
                ((digitRun s : Int) = hi + 1 ∧ digitRun s < s.length))) := by
          omega
        rw [if_pos hrun]
        dsimp only [failure]
        rw [if_congr hiff rfl rfl]
      · have heqr : digitRun s = s.length := by
          have := digitRun_le s
          omega
        have hdrop : s.drop (digitRun s) = [] := by
          rw [heqr, List.drop_length]
        have hiff : (lo.toNat ≤ s.length ∧ s.length ≤ hi.toNat) ↔
            (0 ≤ hi ∧ lo ≤ (digitRun s : Int) ∧
              ((digitRun s : Int) ≤ hi ∨
                ((digitRun s : Int) = hi + 1 ∧ digitRun s < s.length))) := by
          omega
        rw [if_neg hrun]
        dsimp only [failure]
        rw [hdrop]
        rw [if_congr hiff rfl rfl]
  · intro hcontra
    have : (set_str c (s.drop (digitRun s))).cur =
        (set_error c (.noMatch "digits_m" "")).cur := by rw [hcontra]
    simp [set_str, set_error] at this

/-- Witness for the amended C3 at the spec's own scenario: `digits(2..=2)` on
`"1"` fails with a recoverable `NoMatch` (run length `1 < 2`). -/
theorem digits_range_amended_witness :
    digits (cursor ['1']) ⟨.inc 2, .inc 2⟩ =
        set_error (cursor ['1']) (.noMatch "digits_m" "") ∧
      isRecoverable (.noMatch "digits_m" "") = true := by
  have h := digits_range_amended 2 2 (cursor ['1']) ['1'] rfl (by decide)
    (by decide) (by decide)
  refine ⟨?_, h.2.2⟩
  rw [h.1]
  norm_num [digitRun]
  decide

lemma validate_ok {c s : Cursor} (h : validate c = .ok s) :
    s = c ∧ c.err = none := by
  unfold validate at h
  cases hc : c.err with
  | none => rw [hc] at h; exact ⟨(Except.ok.inj h).symm, rfl⟩
  | some e => rw [hc] at h; cases h

lemma repeat_go_spec :
    ∀ (fuel : Nat) (f : Cursor → Cursor) (c : Cursor), c.err = none →
      ∃ k, k ≤ fuel ∧ iter_ok k f c = some (repeat_go fuel f c) ∧
        (k < fuel →
          ∃ e, validate (f (cloneCursor (repeat_go fuel f c))) = .error e) ∧
        (repeat_go fuel f c).err = none := by
  intro fuel
  induction fuel with
  | zero =>
    intro f c hc
    exact ⟨0, Nat.le_refl 0, rfl, fun h => absurd h (Nat.lt_irrefl 0), hc⟩
  | succ n ih =>
    intro f c hc
    cases hv : validate (f (cloneCursor c)) with
    | error e =>
      have hrg : repeat_go (n + 1) f c = c := by
        simp [repeat_go, hv]
      refine ⟨0, Nat.zero_le _, by rw [hrg]; rfl, fun _ => ⟨e, ?_⟩, by rw [hrg]; exact hc⟩
      rw [hrg]; exact hv
    | ok s =>
      obtain ⟨hse, _⟩ := validate_ok hv
      have hserr : s.err = none := by
        rw [hse]
        unfold validate at hv
        cases hfc : (f (cloneCursor c)).err with
        | none => rfl
        | some e => rw [hfc] at hv; cases hv
      have hrg : repeat_go (n + 1) f c = repeat_go n f s := by
        simp [repeat_go, hv]
      obtain ⟨k, hk, hiter, hnext, herr⟩ := ih f s hserr
      refine ⟨k + 1, Nat.succ_le_succ hk, ?_, ?_, by rw [hrg]; exact herr⟩
      · rw [hrg]
        simp only [iter_ok, hv]
        exact hiter
      · intro hlt
        rw [hrg]
        exact hnext (Nat.lt_of_succ_lt_succ hlt)

lemma psv_error_shape {T : Type} :
    ∀ (fuel : Nat) (p : Cursor → Except ParseError (Cursor × T)) (c : Cursor)
      (e : ParseError),
      parse_struct_vec fuel p c = some (.error e) →
      (∃ c', p (cloneCursor c') = .error e) ∧ ∃ cause, e = .fatal cause := by
  intro fuel
  induction fuel with
  | zero => intro p c e h; cases h
  | succ n ih =>
    intro p c e h
    simp only [parse_struct_vec] at h
    cases hp : p (cloneCursor c) with
    | ok st =>
      obtain ⟨s, t⟩ := st
      rw [hp] at h
      dsimp only at h
      cases hrec : parse_struct_vec n p s with
      | none => rw [hrec] at h; cases h
      | some res =>
        cases res with
        | ok pr => rw [hrec] at h; simp at h
        | error e' =>
          rw [hrec] at h
          simp only [Option.some.injEq] at h
          have he : e' = e := by
            cases h; rfl
          exact he ▸ ih p s e' hrec
    | error pe =>
      cases pe with
      | noMatch a b => rw [hp] at h; simp at h
      | fatal cause =>
        rw [hp] at h
        simp only [Option.some.injEq] at h
        have he : e = .fatal cause := by cases h; rfl
        exact ⟨⟨c, by rw [hp, he]⟩, cause, he⟩

lemma psv_never_match {T : Type} (fuel : Nat)
    (p : Cursor → Except ParseError (Cursor × T)) (c : Cursor)
    (hp : ∀ d, ∃ a b, p d = .error (.noMatch a b)) :
    parse_struct_vec (fuel + 1) p c = some (.ok (c, [])) := by
  obtain ⟨a, b, hab⟩ := hp (cloneCursor c)
  simp only [parse_struct_vec, hab]

lemma psv_stop_nomatch {T : Type} :
    ∀ (fuel : Nat) (p : Cursor → Except ParseError (Cursor × T))
      (c c' : Cursor) (ts : List T),
      parse_struct_vec fuel p c = some (.ok (c', ts)) →
      ∃ a b, p (cloneCursor c') = .error (.noMatch a b) := by
  intro fuel
  induction fuel with
  | zero => intro p c c' ts h; cases h
  | succ n ih =>
    intro p c c' ts h
    simp only [parse_struct_vec] at h
    cases hp : p (cloneCursor c) with
    | ok st =>
      obtain ⟨s, t⟩ := st
      rw [hp] at h
      dsimp only at h
      cases hrec : parse_struct_vec n p s with
      | none => rw [hrec] at h; cases h
      | some res =>
        cases res with
        | ok pr =>
          obtain ⟨c'', ts'⟩ := pr
          rw [hrec] at h
          simp only [Option.some.injEq] at h
          have hc : c'' = c' := by cases h; rfl
          exact hc ▸ ih p s c'' ts' hrec
        | error e' => rw [hrec] at h; simp at h
    | error pe =>
      cases pe with
      | noMatch a b =>
        rw [hp] at h
        simp only [Option.some.injEq] at h
        have hc : c = c' := by cases h; rfl
        exact ⟨a, b, hc ▸ hp⟩
      | fatal cause => rw [hp] at h; simp at h


/-- C5 counterexample.  A sub-parser that raises `Fatal` inside `repeat`
does not surface at all: `repeat(1..=3)` over it returns the original,
error-free cursor; inside `select` the `Fatal` is replaced by
`NoMatch { "select_with", "" }` — refuting "surfaces unchanged at the
outermost caller, with no recovery [...] along the way" for both. -/
theorem fatal_propagation_counterexample :
    repeatM (cursor ['a']) ⟨.inc 1, .inc 3⟩ fatalStep = cursor ['a'] ∧
      (cursor ['a']).err = none ∧
      (select fatalStep (cursor ['a'])).err =
        some (.noMatch "select_with" "") := by
  decide

/-- C5 as amended.  A `Fatal` raised by the sub-parser inside
`parse_struct_vec` surfaces unchanged at the caller (every surfaced failure
is exactly a `Fatal` the sub-parser produced); `repeat` never surfaces any
failure (its result is error free whenever its input is); and `select`
replaces any sub-parser failure by `NoMatch { "select_with", "" }`. -/
theorem fatal_propagation_amended :
    (∀ (T : Type) (fuel : Nat) (p : Cursor → Except ParseError (Cursor × T))
        (c : Cursor) (e : ParseError),
      parse_struct_vec fuel p c = some (.error e) →
        (∃ c', p (cloneCursor c') = .error e) ∧ ∃ cause, e = .fatal cause) ∧
    (∀ (r : RangeB) (f : Cursor → Cursor) (c : Cursor),
      c.err = none → (repeatM c r f).err = none) ∧
    (∀ (p : Cursor → Cursor) (c : Cursor) (s : Str),
      c.cur = some s → (p (selection_start c)).cur = none →
      select p c =
        set_error (p (selection_start c)) (.noMatch "select_with" "")) := by
  refine ⟨fun T fuel p c e h => psv_error_shape fuel p c e h,
    fun r f c hc => ?_, fun p c s hc hp => ?_⟩
  · obtain ⟨k, _, _, _, herr⟩ :=
      repeat_go_spec (((start_end r).2.getD i32MAX).toNat) f c hc
    exact herr
  · simp only [select, hc, hp]
    rfl

/-- Witness for the amended C5 at concrete inputs: a one-round
`parse_struct_vec` over an always-`Fatal` sub-parser surfaces exactly that
`Fatal`; `repeat` over `fatalStep` yields an error-free cursor; `select` over
`fatalStep` stores the converted `NoMatch`. -/
theorem fatal_propagation_amended_witness :
    ((∃ c', (fun _ : Cursor => (.error (.fatal (some "boom")) :
          Except ParseError (Cursor × Nat))) (cloneCursor c') =
        .error (.fatal (some "boom"))) ∧
      ∃ cause, (ParseError.fatal (some "boom")) = .fatal cause) ∧
      (repeatM (cursor ['a']) ⟨.inc 1, .inc 3⟩ fatalStep).err = none ∧
      select fatalStep (cursor ['a']) =
        set_error (fatalStep (selection_start (cursor ['a'])))
          (.noMatch "select_with" "") := by
  refine ⟨fatal_propagation_amended.1 Nat 1
      (fun _ => .error (.fatal (some "boom"))) (cursor ['a'])
      (.fatal (some "boom")) (by decide),
    fatal_propagation_amended.2.1 ⟨.inc 1, .inc 3⟩ fatalStep (cursor ['a']) rfl,
    fatal_propagation_amended.2.2 fatalStep (cursor ['a']) ['a'] rfl (by decide)⟩

/-- C6.  `parse_struct_vec` never reports `NoMatch` to the caller (every
surfaced failure is `Fatal`); when the sub-parser never matches the result is
success with an empty sequence and the cursor unmoved; and every successful
result is produced by the loop stopping on a `NoMatch` from the sub-parser at
the returned (last good) cursor. -/
theorem collection_loop_totality :
    (∀ (T : Type) (fuel : Nat) (p : Cursor → Except ParseError (Cursor × T))
        (c : Cursor) (e : ParseError),
      parse_struct_vec fuel p c = some (.error e) →
        ∃ cause, e = .fatal cause) ∧
    (∀ (T : Type) (fuel : Nat) (p : Cursor → Except ParseError (Cursor × T))
        (c : Cursor),
      (∀ d, ∃ a b, p d = .error (.noMatch a b)) →
      parse_struct_vec (fuel + 1) p c = some (.ok (c, []))) ∧
    (∀ (T : Type) (fuel : Nat) (p : Cursor → Except ParseError (Cursor × T))
        (c c' : Cursor) (ts : List T),
      parse_struct_vec fuel p c = some (.ok (c', ts)) →
      ∃ a b, p (cloneCursor c') = .error (.noMatch a b)) :=
  ⟨fun T fuel p c e h => (psv_error_shape fuel p c e h).2,
    fun T fuel p c hp => psv_never_match fuel p c hp,
    fun T fuel p c c' ts h => psv_stop_nomatch fuel p c c' ts h⟩

/-- Witness for C6 at concrete inputs: over a sub-parser that always returns
`NoMatch`, one round of `parse_struct_vec` on `"a"` returns success with an
empty list and the unmoved cursor, and the success is indeed stopped by a
`NoMatch` at the returned cursor. -/
theorem collection_loop_totality_witness :
    parse_struct_vec 1
        (fun _ : Cursor => (.error (.noMatch "x" "") :
          Except ParseError (Cursor × Nat)))
        (cursor ['a']) = some (.ok (cursor ['a'], [])) ∧
      ∃ a b, (fun _ : Cursor => (.error (.noMatch "x" "") :
          Except ParseError (Cursor × Nat)))
        (cloneCursor (cursor ['a'])) = .error (.noMatch a b) := by
  refine ⟨collection_loop_totality.2.1 Nat 0
      (fun _ => .error (.noMatch "x" "")) (cursor ['a'])
      (fun d => ⟨"x", "", rfl⟩), ?_⟩
  exact collection_loop_totality.2.2 Nat 1
    (fun _ => .error (.noMatch "x" "")) (cursor ['a']) (cursor ['a']) []
    (by decide)

/-- C7.  `repeat(range, lexer)` applies the lexer to successive cursor states
exactly some `k ≤ hi` times (`hi` the normalized end bound,
`start_end(range).1.unwrap_or(i32::MAX)` iterations at most), each
application validating successfully (`iter_ok`); if it stopped before the cap
the very next application fails; the result is the last successful cursor
state and holds no error whenever the input holds none. -/
theorem repeat_bounded (r : RangeB) (f : Cursor → Cursor) (c : Cursor)
    (hc : c.err = none) :
    ∃ k, k ≤ ((start_end r).2.getD i32MAX).toNat ∧
      iter_ok k f c = some (repeatM c r f) ∧
      (k < ((start_end r).2.getD i32MAX).toNat →
        ∃ e, validate (f (cloneCursor (repeatM c r f))) = .error e) ∧
      (repeatM c r f).err = none :=
  repeat_go_spec (((start_end r).2.getD i32MAX).toNat) f c hc

/-- Witness for C7 at concrete inputs: `repeat(0..=2)` of `text(",")` on
`",,,"` runs some `k ≤ 2` successful rounds, stops only at the cap or at a
failing round, and ends error free. -/
theorem repeat_bounded_witness :
    ∃ k, k ≤ ((start_end ⟨.inc 0, .inc 2⟩).2.getD i32MAX).toNat ∧
      iter_ok k (fun d => text d [',']) (cursor [',', ',', ',']) =
        some (repeatM (cursor [',', ',', ',']) ⟨.inc 0, .inc 2⟩
          (fun d => text d [','])) ∧
      (k < ((start_end ⟨.inc 0, .inc 2⟩).2.getD i32MAX).toNat →
        ∃ e, validate ((fun d => text d [','])
          (cloneCursor (repeatM (cursor [',', ',', ',']) ⟨.inc 0, .inc 2⟩
            (fun d => text d [','])))) = .error e) ∧
      (repeatM (cursor [',', ',', ',']) ⟨.inc 0, .inc 2⟩
        (fun d => text d [','])).err = none :=
  repeat_bounded ⟨.inc 0, .inc 2⟩ (fun d => text d [',']) (cursor [',', ',', ','])
    rfl



/-- C8 counterexample.  On a cursor whose capture reads back `"ab"` and a
conversion that fails on it, `parse_selection` raises
`NoMatch { action: "parse", args: "" }` — the `args` field is the empty
string, not the captured text (`error::failure` discards its text argument),
refuting "whose args is the captured text". -/
theorem parse_selection_args_counterexample :
    get_selection abCursor = .ok ['a', 'b'] ∧
      natFromStr ['a', 'b'] = none ∧
      parse_selection natFromStr abCursor = .error (.noMatch "parse" "") ∧
      parse_selection natFromStr abCursor ≠
        .error (.noMatch "parse" (String.mk ['a', 'b'])) := by
  decide

/-- C8 as amended.  For any cursor with a readable capture, a failing
conversion makes `parse_selection` fail with `NoMatch` whose action is
`"parse"` and whose `args` is the empty string (the captured text is
discarded by `error::failure`); a successful conversion returns the cursor
unchanged paired with the value, and at the `(Cursor, T1)` tuple instance the
value is appended as the last element with the cursor and the previously
accumulated value unchanged. -/
theorem parse_selection_amended :
    ∀ (T : Type) (fs : Str → Option T) (c : Cursor) (s txt : Str),
      c.cur = some s → get_selection c = .ok txt →
      (fs txt = none →
        parse_selection fs c = .error (.noMatch "parse" "")) ∧
      (∀ v, fs txt = some v → parse_selection fs c = .ok (c, v)) ∧
      (∀ (T1 : Type) (t1 : T1),
        (fs txt = none →
          parse_selection1 fs (c, t1) = .error (.noMatch "parse" "")) ∧
        (∀ v, fs txt = some v →
          parse_selection1 fs (c, t1) = .ok (c, t1, v))) := by
  intro T fs c s txt hc hg
  have hstr : c.str = .ok s := by simp [Cursor.str, hc]
  refine ⟨fun hfs => ?_, fun v hfs => ?_,
    fun T1 t1 => ⟨fun hfs => ?_, fun v hfs => ?_⟩⟩ <;>
    simp [parse_selection, parse_selection1, hg, hstr, hfs, failure]

/-- Witness for the amended C8 at concrete inputs: a capture reading `"42"`
converts to `42`, leaving the cursor (and, in the tuple instance, the
previously accumulated value) unchanged. -/
theorem parse_selection_amended_witness :
    parse_selection natFromStr digitsCursor = .ok (digitsCursor, 42) ∧
      parse_selection1 natFromStr (digitsCursor, true) =
        .ok (digitsCursor, true, 42) := by
  have h := parse_selection_amended Nat natFromStr digitsCursor [] ['4', '2']
    (by decide) (by decide)
  exact ⟨h.2.1 42 (by decide), (h.2.2 Bool true).2 42 (by decide)⟩

/-- C9.  `Cursor` equality holds exactly when both cursors are error free and
their selection, remaining text and context agree; consequently a cursor
holding an error is not equal to itself — equality is not reflexive on error
states. -/
theorem cursor_eq_error_not_reflexive :
    (∀ a b : Cursor, cursor_eq a b = true ↔
      (a.selection = b.selection ∧ a.cur = b.cur ∧ a.context = b.context ∧
        a.err = none ∧ b.err = none)) ∧
    (∀ (c : Cursor) (e : ParseError), c.err = some e →
      cursor_eq c c = false) := by
  constructor
  · intro a b
    unfold cursor_eq
    cases ha : a.err <;> cases hb : b.err <;>
      simp [Bool.and_eq_true, decide_eq_true_eq, ha, hb, and_assoc]
  · intro c e he
    unfold cursor_eq
    simp [he]

/-- Witness for C9 at a concrete input: a cursor holding a `Fatal` error is
not equal to itself. -/
theorem cursor_eq_error_not_reflexive_witness :
    cursor_eq errCursorW errCursorW = false ∧ errCursorW.err ≠ none := by
  exact ⟨cursor_eq_error_not_reflexive.2 errCursorW (.fatal (some "boom")) rfl,
    by decide⟩

/-- C10.  Cloning a `ParseError` maps `Fatal(cause)` to `Fatal(None)` —
a genuine information loss, since `Fatal(Some x) ≠ Fatal(None)` — while
`NoMatch` clones to an identical value; and `get_selection`, which surfaces
the stored error of an erroring cursor by cloning, therefore loses the
`Fatal` cause. -/
theorem clone_discards_fatal_cause :
    (∀ cause, cloneParseError (.fatal cause) = .fatal none) ∧
      (∀ x : String, ParseError.fatal (some x) ≠ ParseError.fatal none) ∧
      (∀ a b, cloneParseError (.noMatch a b) = .noMatch a b) ∧
      (∀ (c : Cursor) (cause : Option String),
        c.cur = none → c.err = some (.fatal cause) →
        get_selection c = .error (.fatal none)) := by
  refine ⟨fun cause => rfl, fun x h => by simp at h, fun a b => rfl,
    fun c cause hc he => ?_⟩
  simp [get_selection, hc, he, cloneParseError]

/-- Witness for C10 at concrete inputs: cloning `Fatal(Some "cause")` gives
`Fatal(None)`, and reading the selection of a cursor holding
`Fatal(Some "boom")` surfaces `Fatal(None)`. -/
theorem clone_discards_fatal_cause_witness :
    cloneParseError (.fatal (some "cause")) = .fatal none ∧
      get_selection errCursorW = .error (.fatal none) := by
  exact ⟨clone_discards_fatal_cause.1 (some "cause"),
    clone_discards_fatal_cause.2.2.2 errCursorW (some "boom") rfl rfl⟩


end Chainsaw
